import Mathlib

set_option maxRecDepth 8192

/-!
Shallow embedding of the forensic artifact store and query engine implemented in
`servers/Hindsight/hindsight_mcp_server.py` (functions `_parse_hindsight_timestamp`,
`search_analysis_results`, `create_analysis_summary`, global `analysis_results`).

Modelling conventions:
* Python scalar JSON values are the inductive `HVal`; Python `float` is modelled by `Rat`
  (arithmetic on these magnitudes is exact in `Rat`; IEEE rounding is idealized away).
  `bool` counts as numeric, as in CPython (`isinstance(True, int)` holds).
* Python dicts are association lists with first-match lookup (keys are unique in dicts
  produced by `json.loads`).
* `datetime.fromtimestamp(ts, tz=timezone.utc)` is modelled as the identity on Unix
  seconds, guarded by the `datetime` range (years 1..9999); out-of-range raises
  `ValueError` in CPython, which `_parse_hindsight_timestamp` catches, so the model
  returns `none` there.
* `dateutil.parser.parse` (a third-party library, not part of this repository) is an
  explicit function parameter `ps : String → Option Rat` giving the UTC Unix seconds of
  the parsed instant, `none` when the parser raises.
* `str.lower` is modelled ASCII-only via `Char.toLower`; `str.count` is the
  non-overlapping occurrence count; `in` on strings is substring containment.
* Store mutation: `search_analysis_results` only reads the global `analysis_results`
  dict; the model returns the store alongside the outcome to make that observable.
-/

/-- A scalar JSON value as it appears in a Hindsight JSONL record. -/
inductive HVal where
  | vNull : HVal
  | vBool : Bool → HVal
  | vInt : Int → HVal
  | vFloat : Rat → HVal
  | vStr : String → HVal
deriving DecidableEq, Repr

/-- Python truthiness of an `HVal` (`if item[key]:` etc.). -/
def truthy : HVal → Bool
  | .vNull => false
  | .vBool b => b
  | .vInt n => n != 0
  | .vFloat q => q != 0
  | .vStr s => s != ""

/-- One entry of a stored `results` list: either a string-keyed mapping (a dict) or any
other JSON value (`json.loads` of a JSONL line can yield e.g. `null` or a number). -/
inductive Entry where
  | dict : List (String × HVal) → Entry
  | nondict : HVal → Entry
deriving DecidableEq, Repr

/-- The `"results"` value stored in an analysis: a list of entries, or some non-list
value (the code guards every traversal with `isinstance(results, list)`). -/
inductive ResultsVal where
  | list : List Entry → ResultsVal
  | nonlist : ResultsVal
deriving DecidableEq, Repr

/-- The per-analysis record stored in the global `analysis_results` dict.  Only the
`"results"` key is read by the query engine and the summarizer; the metadata keys
(`source_file`, `browser_type`, `timestamp`) are irrelevant to the claims and omitted. -/
structure AnalysisData where
  results : ResultsVal
deriving DecidableEq, Repr

/-- The global `analysis_results : Dict[str, ...]` store. -/
def Store := List (String × AnalysisData)

/-- `results if isinstance(results, list) else []`. -/
def resultsList : ResultsVal → List Entry
  | .list l => l
  | .nonlist => []

/-- ASCII model of Python `str.lower`. -/
def strLower (s : String) : String :=
  String.mk (s.data.map Char.toLower)

/-- Count of non-overlapping occurrences of a non-empty pattern, scanning left to
right (the semantics of CPython `str.count` for non-empty patterns): after a match the
scan skips past the matched characters, tracked by the skip counter. -/
def countOccGo (n : List Char) : List Char → Nat → Nat
  | [], _ => 0
  | c :: rest, 0 =>
    if n.isPrefixOf (c :: rest) then 1 + countOccGo n rest (n.length - 1)
    else countOccGo n rest 0
  | _ :: rest, k + 1 => countOccGo n rest k

/-- Count of non-overlapping occurrences, scanning from the start. -/
def countOcc (n hay : List Char) : Nat :=
  countOccGo n hay 0

/-- Python `s.count(n)` (for the empty pattern CPython returns `len(s) + 1`). -/
def pyCount (n s : String) : Nat :=
  if n.data = [] then s.data.length + 1 else countOcc n.data s.data

/-- Python `n in s` substring test. -/
def pyContains (n s : String) : Bool :=
  0 < pyCount n s

/-- First truthy value of `fields` among `keys`, i.e. the Python expression
`item.get(k1) or item.get(k2) or ...` (absent keys give `None`, which is falsy). -/
def firstTruthy (fields : List (String × HVal)) : List String → Option HVal
  | [] => none
  | k :: ks =>
    match fields.lookup k with
    | some v => if truthy v then some v else firstTruthy fields ks
    | none => firstTruthy fields ks

/-- Lowercase hex digit. -/
def hexDigit (n : Nat) : Char :=
  if n < 10 then Char.ofNat (48 + n) else Char.ofNat (87 + n)

/-- Four lowercase hex digits of `n` (for a `\uXXXX` escape). -/
def hex4 (n : Nat) : List Char :=
  [hexDigit (n / 4096 % 16), hexDigit (n / 256 % 16), hexDigit (n / 16 % 16),
   hexDigit (n % 16)]

/-- `json.dumps` escaping of one character (default `ensure_ascii=True`): the two-char
escapes for quote, backslash and common controls, `\uXXXX` for other controls and all
non-ASCII (surrogate pairs above U+FFFF), the character itself otherwise. -/
def jsonEscapeChar (c : Char) : List Char :=
  if c = '"' then ['\\', '"']
  else if c = '\\' then ['\\', '\\']
  else if c = '\n' then ['\\', 'n']
  else if c = '\r' then ['\\', 'r']
  else if c = '\t' then ['\\', 't']
  else if c = Char.ofNat 8 then ['\\', 'b']
  else if c = Char.ofNat 12 then ['\\', 'f']
  else if c.toNat < 32 || 126 < c.toNat then
    if c.toNat ≤ 65535 then '\\' :: 'u' :: hex4 c.toNat
    else
      let v := c.toNat - 65536
      '\\' :: 'u' :: hex4 (55296 + v / 1024) ++ '\\' :: 'u' :: hex4 (56320 + v % 1024)
  else [c]

/-- A JSON string literal as `json.dumps` renders it. -/
def jsonStr (s : String) : String :=
  String.mk ('"' :: (s.data.map jsonEscapeChar).flatten ++ ['"'])

/-- Decimal digits of the fractional part of `0 ≤ q < 1`, with fuel (the rationals that
arise from IEEE doubles always terminate within 1100 digits). -/
def fracDigits : Nat → Rat → List Char
  | 0, _ => []
  | fuel + 1, q =>
    if q = 0 then []
    else
      let q10 := q * 10
      Char.ofNat (48 + (q10.floor % 10).toNat) :: fracDigits fuel (q10 - q10.floor)

/-- Rendering of a nonnegative float as `repr` renders the ideal decimal it stands for
(`5.0`, `0.25`; exponent notation for extreme magnitudes is not modelled). -/
def floatReprNonneg (q : Rat) : String :=
  let ip := q.floor
  let fp := q - ip
  if fp = 0 then toString ip ++ ".0"
  else toString ip ++ "." ++ String.mk (fracDigits 1100 fp)

/-- Python `repr` of a float value (as used by `json.dumps`). -/
def floatRepr (q : Rat) : String :=
  if q < 0 then "-" ++ floatReprNonneg (-q) else floatReprNonneg q

/-- `json.dumps` of one scalar value. -/
def jsonDumpsVal : HVal → String
  | .vNull => "null"
  | .vBool true => "true"
  | .vBool false => "false"
  | .vInt n => toString n
  | .vFloat q => floatRepr q
  | .vStr s => jsonStr s

/-- `json.dumps(item)` for a dict with the default separators `", "` and `": "`. -/
def jsonDumps (fields : List (String × HVal)) : String :=
  "\x7b" ++ String.intercalate ", "
    (fields.map fun kv => jsonStr kv.1 ++ ": " ++ jsonDumpsVal kv.2) ++ "\x7d"

/-- Seconds between 1601-01-01 and 1970-01-01, the Windows FILETIME epoch offset the
normalizer subtracts. -/
def filetimeOffset : Rat := 11644473600

/-- The magnitude-bracket unit reduction and FILETIME offset correction applied by
`_parse_hindsight_timestamp` to a numeric value (lines 427-432 of the server). -/
def numNormalize (v : Rat) : Rat :=
  let s :=
    if v > 1000000000000000 then v / 1000000000
    else if v > 1000000000000 then v / 1000000
    else if v > 10000000000 then v / 1000
    else v
  if s > filetimeOffset then s - filetimeOffset else s

/-- `datetime.fromtimestamp(s, tz=timezone.utc)` modelled on Unix seconds: defined
exactly on the `datetime` range (0001-01-01 to 9999-12-31); outside it CPython raises
`ValueError`, which the normalizer catches. -/
def fromtimestampUTC (s : Rat) : Option Rat :=
  if -62135596800 ≤ s ∧ s < 253402300800 then some s else none

/-- Numeric branch of the normalizer: unit reduction, offset correction, conversion. -/
def tryNum (v : Rat) : Option Rat :=
  fromtimestampUTC (numNormalize v)

/-- One candidate value inside the `try` of `_parse_hindsight_timestamp`: numbers (with
`bool` counting as `int`) go through the magnitude heuristic, strings go to
`dateutil.parser.parse` (the parameter `ps`), anything else matches no branch and the
loop falls through.  `none` means "no return from this candidate". -/
def tryVal (ps : String → Option Rat) : HVal → Option Rat
  | .vInt n => tryNum (n : Rat)
  | .vFloat q => tryNum q
  | .vBool b => tryNum (if b then 1 else 0)
  | .vStr s => ps s
  | .vNull => none

/-- The fixed candidate key order of `_parse_hindsight_timestamp`. -/
def candidateKeys : List String :=
  ["datetime", "timestamp", "visit_time", "start_time", "last_visit_time"]

/-- The `for key in [...]` loop of `_parse_hindsight_timestamp`: skip keys that are
absent or have falsy values; on a parse failure the `except ...: continue` moves on to
the next key. -/
def probeKeys (ps : String → Option Rat) (fields : List (String × HVal)) :
    List String → Option Rat
  | [] => none
  | k :: ks =>
    match fields.lookup k with
    | some v =>
      if truthy v then
        match tryVal ps v with
        | some t => some t
        | none => probeKeys ps fields ks
      else probeKeys ps fields ks
    | none => probeKeys ps fields ks

/-- `_parse_hindsight_timestamp(item)`: the returned value is the UTC instant as Unix
seconds (`none` models Python `None`). -/
def parse_hindsight_timestamp (ps : String → Option Rat)
    (fields : List (String × HVal)) : Option Rat :=
  probeKeys ps fields candidateKeys

/-- Calendar day number (days since 1970-01-01) of a UTC instant given as Unix seconds:
`datetime.fromtimestamp(s, tz=timezone.utc).date()` compares exactly as this integer
does.  This is `⌊s / 86400⌋`, computed on the numerator and denominator so that it
evaluates by kernel reduction (`/` on `Int` floors for a positive divisor); the lemma
`dayOfSeconds_eq_floor` below states the equivalence. -/
def dayOfSeconds (s : Rat) : Int :=
  s.num / (86400 * (s.den : Int))

/-- Calendar year of a day number, by the standard civil-from-days algorithm. -/
def yearOfDay (z : Int) : Int :=
  let z' := z + 719468
  let era := Int.fdiv z' 146097
  let doe := z' - era * 146097
  let yoe := (doe - doe / 1460 + doe / 36524 - doe / 146096) / 365
  let y := yoe + era * 400
  let doy := doe - (365 * yoe + yoe / 4 - yoe / 100)
  let mp := (5 * doy + 2) / 153
  let m := mp + (if mp < 10 then 3 else (-9 : Int))
  if m ≤ 2 then y + 1 else y

/-- Day number of the civil date `y-m-d` (inverse direction of `yearOfDay`). -/
def daysFromCivil (y m d : Int) : Int :=
  let y' := if m ≤ 2 then y - 1 else y
  let era := Int.fdiv y' 400
  let yoe := y' - era * 400
  let mp := if m > 2 then m - 3 else m + 9
  let doy := (153 * mp + 2) / 5 + d - 1
  let doe := yoe * 365 + yoe / 4 - yoe / 100 + doy
  era * 146097 + doe - 719468

/-- Gregorian leap-year test. -/
def isLeap (y : Int) : Bool :=
  (y % 4 = 0 ∧ y % 100 ≠ 0) ∨ y % 400 = 0

/-- Days in month `m` of year `y`. -/
def daysInMonth (y m : Int) : Int :=
  if m = 2 then (if isLeap y then 29 else 28)
  else if m = 4 ∨ m = 6 ∨ m = 9 ∨ m = 11 then 30
  else 31

/-- Decimal value of an ASCII digit, `none` otherwise. -/
def digitVal (c : Char) : Option Nat :=
  if 48 ≤ c.toNat ∧ c.toNat ≤ 57 then some (c.toNat - 48) else none

/-- Two ASCII digits read as a number, returning the remaining characters. -/
def digit2 : List Char → Option (Nat × List Char)
  | a :: b :: rest =>
    match digitVal a, digitVal b with
    | some x, some y => some (10 * x + y, rest)
    | _, _ => none
  | _ => none

/-- A run of ASCII digits as a number (`none` if any character is not a digit). -/
def digitsToNat (l : List Char) : Option Nat :=
  l.foldl
    (fun acc c =>
      match acc, digitVal c with
      | some n, some d => some (10 * n + d)
      | _, _ => none)
    (some 0)

/-- The `HH[:MM[:SS[.fff[fff]]]]` component parser of `datetime.fromisoformat`
(CPython `_parse_hh_mm_ss_ff`): two-digit components separated by `:`, a fractional
part of exactly 3 or 6 digits after full `HH:MM:SS`, the whole string consumed.
Returns (hours, minutes, seconds, microseconds) without range checks — those are the
constructor's. -/
def hhMmSsFf (l : List Char) : Option (Nat × Nat × Nat × Nat) :=
  match digit2 l with
  | none => none
  | some (hh, rest) =>
    match rest with
    | [] => some (hh, 0, 0, 0)
    | ':' :: r2 =>
      match digit2 r2 with
      | none => none
      | some (mm, rest2) =>
        match rest2 with
        | [] => some (hh, mm, 0, 0)
        | ':' :: r3 =>
          match digit2 r3 with
          | none => none
          | some (ss, rest3) =>
            match rest3 with
            | [] => some (hh, mm, ss, 0)
            | '.' :: fr =>
              match digitsToNat fr with
              | none => none
              | some v =>
                if fr.length = 3 then some (hh, mm, ss, v * 1000)
                else if fr.length = 6 then some (hh, mm, ss, v)
                else none
            | _ => none
        | _ => none
    | _ => none

/-- Validity of the time-of-day portion of an ISO datetime string, as
`datetime.fromisoformat` accepts it in CPython 3.8-3.10: an `HH[:MM[:SS[.fff[fff]]]]`
part whose components pass the `datetime` constructor's ranges, optionally followed
by a `+` or `-` UTC-offset `HH:MM[:SS[.ffffff]]` (5, 8 or 15 characters) whose total
magnitude the `timezone` constructor requires strictly below 24 hours (its components
carry no individual range check).  `.date()` ignores all of it, so only acceptance
matters. -/
def isoTimeValid (tstr : List Char) : Bool :=
  let main := tstr.takeWhile (fun c => !(c = '+' || c = '-'))
  let rest := tstr.dropWhile (fun c => !(c = '+' || c = '-'))
  match hhMmSsFf main with
  | none => false
  | some (hh, mm, ss, _) =>
    if hh ≤ 23 ∧ mm ≤ 59 ∧ ss ≤ 59 then
      match rest with
      | [] => true
      | _ :: tzstr =>
        (tzstr.length = 5 ∨ tzstr.length = 8 ∨ tzstr.length = 15) &&
        match hhMmSsFf tzstr with
        | none => false
        | some (th, tm, ts, _) => th * 3600 + tm * 60 + ts < 86400
    else false

/-- `datetime.fromisoformat(s).date()` at the format documented for CPython 3.8-3.10
(the package's `python_requires` floor):
`YYYY-MM-DD[*HH[:MM[:SS[.fff[fff]]]][±HH:MM[:SS[.ffffff]]]]`, where `*` is any single
separator character.  A valid calendar date gives its day number — `.date()` returns
the naive date fields, so the optional time and offset only affect acceptance;
anything else is `none` (CPython raises `ValueError`, caught by the date-range
`except ValueError`).  CPython 3.11+ additionally accepts further ISO 8601 forms
(compact dates, `Z`, arbitrary fraction lengths), which this model does not cover. -/
def fromisoformatDate (s : String) : Option Int :=
  match s.data with
  | y1 :: y2 :: y3 :: y4 :: h1 :: m1 :: m2 :: h2 :: d1 :: d2 :: rest =>
    if h1 = '-' ∧ h2 = '-' then
      match digitVal y1, digitVal y2, digitVal y3, digitVal y4,
            digitVal m1, digitVal m2, digitVal d1, digitVal d2 with
      | some a, some b, some c, some d, some e, some f, some g, some h =>
        let yv : Int := 1000 * a + 100 * b + 10 * c + d
        let mv : Int := 10 * e + f
        let dv : Int := 10 * g + h
        if 1 ≤ yv ∧ 1 ≤ mv ∧ mv ≤ 12 ∧ 1 ≤ dv ∧ dv ≤ daysInMonth yv mv ∧
            (match rest with
             | [] => true
             | _ :: tstr => isoTimeValid tstr) = true then
          some (daysFromCivil yv mv dv)
        else none
      | _, _, _, _, _, _, _, _ => none
    else none
  | _ => none

/-- Stable insertion of `x` into a list sorted descending by `key`: `x` goes in front
of the first element whose key is not larger, so an element inserted from the left of
the input ends up before its ties. -/
def insertDescBy {α β : Type} [LinearOrder β] (key : α → β) (x : α) :
    List α → List α
  | [] => [x]
  | y :: ys => if key y ≤ key x then x :: y :: ys else y :: insertDescBy key x ys

/-- Stable descending sort by `key`: the model of CPython `list.sort(key=...,
reverse=True)`, which is stable and does not reverse ties. -/
def sortDescBy {α β : Type} [LinearOrder β] (key : α → β) : List α → List α
  | [] => []
  | x :: xs => insertDescBy key x (sortDescBy key xs)

/-- The optional `date_range` argument: a dict with optional `start_date` /
`end_date` string entries. -/
structure DateRangeArg where
  start_date : Option String := none
  end_date : Option String := none
deriving DecidableEq, Repr

/-- The arguments of the `search_analysis_results` tool (the MCP schema types them as
strings; defaults mirror `arguments.get`). -/
structure SearchArgs where
  analysis_id : String
  search_term : String := ""
  artifact_type : Option String := none
  date_range : Option DateRangeArg := none
deriving DecidableEq, Repr

/-- One element of the `matches` list built by `search_analysis_results`. -/
structure Match where
  category : HVal
  item : Entry
  relevance : Nat
deriving DecidableEq, Repr

/-- The observable result of `search_analysis_results`: each constructor is one of the
function's `return` statements (the rendered per-match presentation text is a display
concern and not modelled).  `raised` stands for an exception escaping the function
(caught only at the tool-dispatch boundary). -/
inductive Outcome where
  | notFound : String → Outcome
  | invalidDate : String → Outcome
  | noMatches : String → Outcome
  | found : List Match → Outcome
  | raised : Outcome
deriving DecidableEq, Repr

/-- `if date_range.get(k): datetime.fromisoformat(...).date()` for one boundary: an
absent or falsy (empty) string is skipped, an unparsable one raises `ValueError`. -/
def parseBound : Option String → Except Unit (Option Int)
  | none => .ok none
  | some s =>
    if s = "" then .ok none
    else
      match fromisoformatDate s with
      | some d => .ok (some d)
      | none => .error ()

/-- The date-range parsing block of `search_analysis_results` (start parsed first, the
shared `except ValueError` turns either failure into the invalid-format return). -/
def parseDateRange : Option DateRangeArg → Except Unit (Option Int × Option Int)
  | none => .ok (none, none)
  | some dr =>
    match parseBound dr.start_date with
    | .error e => .error e
    | .ok s =>
      match parseBound dr.end_date with
      | .error e => .error e
      | .ok e => .ok (s, e)

/-- The date filter of the search loop: with no bound present every record passes;
otherwise a record passes iff its normalized timestamp exists and its UTC date violates
no supplied bound. -/
def datePass (ps : String → Option Rat) (start? end? : Option Int)
    (fields : List (String × HVal)) : Bool :=
  if start?.isSome || end?.isSome then
    match parse_hindsight_timestamp ps fields with
    | none => false
    | some t =>
      let d := dayOfSeconds t
      !(match start? with | some s => decide (d < s) | none => false) &&
      !(match end? with | some e => decide (e < d) | none => false)
  else true

/-- `(item.get('artifact') or item.get('type') or item.get('category') or '').lower()`:
`none` models the `TypeError` CPython raises when the chain selects a truthy
non-string value (uncaught inside `search_analysis_results`). -/
def categoryFilterStr (fields : List (String × HVal)) : Option String :=
  match firstTruthy fields ["artifact", "type", "category"] with
  | none => some ""
  | some (.vStr s) => some (strLower s)
  | some _ => none

/-- `item.get('artifact') or item.get('type') or item.get('category') or 'unknown'`,
the category value stored in a match and used by the summarizer buckets. -/
def categoryHV (fields : List (String × HVal)) : HVal :=
  (firstTruthy fields ["artifact", "type", "category"]).getD (.vStr "unknown")

/-- Term filter and match construction for one record that survived the earlier
filters (`term` is the already-lowercased search term). -/
def termStep (term : String) (fields : List (String × HVal)) : Option Match :=
  let itemText := strLower (jsonDumps fields)
  if term ≠ "" ∧ ¬ pyContains term itemText then none
  else some ⟨categoryHV fields, .dict fields, if term ≠ "" then pyCount term itemText else 1⟩

/-- One iteration of the search loop: non-dict entries are skipped, then the date,
category and term filters apply in order; `Except.error` is a raised `TypeError`. -/
def itemStep (ps : String → Option Rat) (start? end? : Option Int)
    (atype : Option String) (term : String) : Entry → Except Unit (Option Match)
  | .nondict _ => .ok none
  | .dict fields =>
    if datePass ps start? end? fields then
      match atype with
      | some ft =>
        if ft ≠ "" then
          match categoryFilterStr fields with
          | none => .error ()
          | some cat =>
            if pyContains (strLower ft) cat then .ok (termStep term fields)
            else .ok none
        else .ok (termStep term fields)
      | none => .ok (termStep term fields)
    else .ok none

/-- The whole search loop over the stored results list, in order; an exception aborts
the remainder of the loop. -/
def buildMatches (ps : String → Option Rat) (start? end? : Option Int)
    (atype : Option String) (term : String) : List Entry → Except Unit (List Match)
  | [] => .ok []
  | e :: es =>
    match itemStep ps start? end? atype term e with
    | .error u => .error u
    | .ok m? =>
      match buildMatches ps start? end? atype term es with
      | .error u => .error u
      | .ok rest => .ok (match m? with | some m => m :: rest | none => rest)

/-- `search_analysis_results(arguments)`: lookup, date-range parsing, the filter loop,
the stable descending sort by relevance, and the empty-result message.  The store is
returned unchanged on every path, mirroring that the function never writes to the
global `analysis_results`. -/
def search_analysis_results (ps : String → Option Rat) (store : Store)
    (args : SearchArgs) : Outcome × Store :=
  let term := strLower args.search_term
  match List.lookup args.analysis_id store with
  | none =>
    (.notFound ("Error: Analysis ID \x27" ++ args.analysis_id ++ "\x27 not found"), store)
  | some data =>
    match parseDateRange args.date_range with
    | .error _ => (.invalidDate "Error: Invalid date format. Please use YYYY-MM-DD.", store)
    | .ok (start?, end?) =>
      match buildMatches ps start? end? args.artifact_type term (resultsList data.results) with
      | .error _ => (.raised, store)
      | .ok pre =>
        let sorted := sortDescBy Match.relevance pre
        if sorted.isEmpty then
          (.noMatches ("No matches found for the specified criteria in analysis \x27" ++
            args.analysis_id ++ "\x27."), store)
        else (.found sorted, store)

/-- The match list of an outcome, when the search ran to completion ("no matches" is
the empty list). -/
def matchList : Outcome → Option (List Match)
  | .noMatches _ => some []
  | .found l => some l
  | _ => none

/-- `isinstance(it, dict)`. -/
def isDictEntry : Entry → Bool
  | .dict _ => true
  | .nondict _ => false

/-- The category-count accumulation `buckets[category] = buckets.get(category, 0) + 1`
on an insertion-ordered association list (a Python dict keyed by the category value). -/
def bucketIncr : List (HVal × Nat) → HVal → List (HVal × Nat)
  | [], k => [(k, 1)]
  | (k', n) :: rest, k =>
    if k' = k then (k', n + 1) :: rest else (k', n) :: bucketIncr rest k

/-- The bucket loop of `create_analysis_summary`: non-dict entries are skipped, dict
entries are tallied under their derived category. -/
def bucketsOf (items : List Entry) : List (HVal × Nat) :=
  items.foldl
    (fun b e => match e with | .nondict _ => b | .dict f => bucketIncr b (categoryHV f)) []

/-- Sum of all per-category counts. -/
def sumBuckets (b : List (HVal × Nat)) : Nat :=
  (b.map Prod.snd).sum

/-- `isinstance(it, dict) and 'url' in it` (key presence, not truthiness). -/
def hasUrlKey : Entry → Bool
  | .dict f => (f.lookup "url").isSome
  | .nondict _ => false

/-- `urls = [it for it in items_list if isinstance(it, dict) and 'url' in it]`. -/
def urlsOf (items : List Entry) : List Entry :=
  items.filter hasUrlKey

/-- The sort key `x.get('visit_count', 0)` of the top-visited highlight: an absent key
is 0, a numeric value (`bool` included) is its value; `none` stands for a value whose
comparison against a number raises `TypeError` (the model of the sort is only defined
when every key is numeric). -/
def visitCountKey : Entry → Option Rat
  | .dict f =>
    match f.lookup "visit_count" with
    | none => some 0
    | some (.vInt n) => some (n : Rat)
    | some (.vFloat q) => some q
    | some (.vBool b) => some (if b then 1 else 0)
    | some _ => none
  | .nondict _ => some 0

/-- `u.get('url') or ''` followed by string slicing: `none` models the `TypeError` on
a truthy non-string url value. -/
def urlStrOf : Entry → Option String
  | .dict f =>
    match f.lookup "url" with
    | some v => if truthy v then (match v with | .vStr s => some s | _ => none) else some ""
    | none => some ""
  | .nondict _ => some ""

/-- `s[:50] + ('...' if len(s) > 50 else '')`. -/
def renderTrunc (s : String) : String :=
  s.take 50 ++ (if 50 < s.length then "..." else "")

/-- `sorted(urls, key=lambda x: x.get('visit_count', 0), reverse=True)` — Python
`sorted` is stable and `reverse=True` keeps ties in list order. -/
def sorted_urls (items : List Entry) : Option (List Entry) :=
  let urls := urlsOf items
  if urls.all (fun u => (visitCountKey u).isSome) then
    some (sortDescBy (fun u => (visitCountKey u).getD 0) urls)
  else none

/-- The list of rendered strings joined into the "Top visited" highlight of
`create_analysis_summary` (empty when no record carries a `url` key, in which case the
code prints no highlight line). -/
def top_visited (items : List Entry) : Option (List String) :=
  match sorted_urls items with
  | none => none
  | some su =>
    let top := su.take 3
    if top.all (fun u => (urlStrOf u).isSome) then
      some (top.map (fun u => renderTrunc ((urlStrOf u).getD "")))
    else none

/-- The contribution of a single candidate key in the probe loop: the key must be
present with a truthy value and that value must parse; any failure reads as `none`
(the loop then continues). -/
def tryKey (ps : String → Option Rat) (fields : List (String × HVal))
    (k : String) : Option Rat :=
  match fields.lookup k with
  | some v => if truthy v then tryVal ps v else none
  | none => none

theorem insertDescBy_perm {α β : Type} [LinearOrder β] (key : α → β) (x : α)
    (l : List α) : (insertDescBy key x l).Perm (x :: l) := by
  induction l with
  | nil => exact List.Perm.refl _
  | cons y ys ih =>
    by_cases h : key y ≤ key x
    · simp [insertDescBy, h]
    · simp only [insertDescBy, if_neg h]
      exact (ih.cons y).trans (List.Perm.swap x y ys)

theorem insertDescBy_pairwise {α β : Type} [LinearOrder β] (key : α → β) (x : α)
    (l : List α) (h : l.Pairwise (fun a b => key b ≤ key a)) :
    (insertDescBy key x l).Pairwise (fun a b => key b ≤ key a) := by
  induction l with
  | nil => simp [insertDescBy]
  | cons y ys ih =>
    rcases List.pairwise_cons.mp h with ⟨hy, hys⟩
    by_cases h1 : key y ≤ key x
    · simp only [insertDescBy, if_pos h1]
      refine List.pairwise_cons.mpr ⟨?_, h⟩
      intro z hz
      rcases List.mem_cons.mp hz with rfl | hz'
      · exact h1
      · exact le_trans (hy z hz') h1
    · simp only [insertDescBy, if_neg h1]
      refine List.pairwise_cons.mpr ⟨?_, ih hys⟩
      intro z hz
      rcases List.mem_cons.mp ((insertDescBy_perm key x ys).mem_iff.mp hz) with hzx | hz'
      · exact hzx ▸ le_of_lt (not_le.mp h1)
      · exact hy z hz'

theorem insertDescBy_filter_key {α β : Type} [LinearOrder β] (key : α → β) (k : β)
    (x : α) (l : List α) :
    (insertDescBy key x l).filter (fun a => key a = k) =
      (x :: l).filter (fun a => key a = k) := by
  induction l with
  | nil => rfl
  | cons y ys ih =>
    by_cases h1 : key y ≤ key x
    · simp [insertDescBy, h1]
    · have hxy : key x < key y := not_le.mp h1
      simp only [insertDescBy, if_neg h1]
      by_cases hx : key x = k <;> by_cases hy : key y = k
      · exact absurd (hx.trans hy.symm) (ne_of_lt hxy)
      all_goals simp [List.filter_cons, hx, hy, ih]

theorem sortDescBy_perm {α β : Type} [LinearOrder β] (key : α → β) (l : List α) :
    (sortDescBy key l).Perm l := by
  induction l with
  | nil => exact List.Perm.refl _
  | cons x xs ih => exact (insertDescBy_perm key x _).trans (ih.cons x)

theorem sortDescBy_pairwise {α β : Type} [LinearOrder β] (key : α → β) (l : List α) :
    (sortDescBy key l).Pairwise (fun a b => key b ≤ key a) := by
  induction l with
  | nil => simp [sortDescBy]
  | cons x xs ih => exact insertDescBy_pairwise key x _ ih

theorem sortDescBy_filter_key {α β : Type} [LinearOrder β] (key : α → β) (k : β)
    (l : List α) :
    (sortDescBy key l).filter (fun a => key a = k) =
      l.filter (fun a => key a = k) := by
  induction l with
  | nil => rfl
  | cons x xs ih =>
    calc (insertDescBy key x (sortDescBy key xs)).filter (fun a => key a = k)
        = (x :: sortDescBy key xs).filter (fun a => key a = k) :=
          insertDescBy_filter_key key k x _
      _ = (x :: xs).filter (fun a => key a = k) := by
          simp only [List.filter_cons]
          rw [ih]

theorem probeKeys_eq_none_iff (ps : String → Option Rat)
    (fields : List (String × HVal)) (ks : List String) :
    probeKeys ps fields ks = none ↔ ∀ k ∈ ks, tryKey ps fields k = none := by
  induction ks with
  | nil => simp [probeKeys]
  | cons k ks ih =>
    cases hlk : List.lookup k fields with
    | none => simp [probeKeys, hlk, tryKey, ih]
    | some v =>
      by_cases htr : truthy v
      · cases htv : tryVal ps v with
        | some t => simp [probeKeys, hlk, htr, htv, tryKey]
        | none => simp [probeKeys, hlk, htr, htv, tryKey, ih]
      · simp [probeKeys, hlk, htr, tryKey, ih]

theorem probeKeys_eq_some (ps : String → Option Rat)
    (fields : List (String × HVal)) (ks : List String) (t : Rat)
    (h : probeKeys ps fields ks = some t) :
    ∃ pre post k, ks = pre ++ k :: post ∧ tryKey ps fields k = some t ∧
      ∀ k' ∈ pre, tryKey ps fields k' = none := by
  induction ks with
  | nil => simp [probeKeys] at h
  | cons k ks ih =>
    have step :
        tryKey ps fields k = some t ∨
        (tryKey ps fields k = none ∧ probeKeys ps fields ks = some t) := by
      cases hlk : List.lookup k fields with
      | none =>
        right
        exact ⟨by simp [tryKey, hlk], by simpa [probeKeys, hlk] using h⟩
      | some v =>
        by_cases htr : truthy v
        · cases htv : tryVal ps v with
          | some t' =>
            left
            have ht : t' = t := by simpa [probeKeys, hlk, htr, htv] using h
            simp [tryKey, hlk, htr, htv, ht]
          | none =>
            right
            exact ⟨by simp [tryKey, hlk, htr, htv],
              by simpa [probeKeys, hlk, htr, htv] using h⟩
        · right
          exact ⟨by simp [tryKey, hlk, htr], by simpa [probeKeys, hlk, htr] using h⟩
    rcases step with hk | ⟨hk, hrest⟩
    · exact ⟨[], ks, k, rfl, hk, by simp⟩
    · obtain ⟨pre, post, k0, hks, hk0, hpre⟩ := ih hrest
      refine ⟨k :: pre, post, k0, by simp [hks], hk0, ?_⟩
      intro k' hk'
      rcases List.mem_cons.mp hk' with hkk | hmem
      · exact hkk ▸ hk
      · exact hpre k' hmem

theorem termStep_some_spec (term : String) (fields : List (String × HVal))
    (m : Match) (h : termStep term fields = some m) :
    m.item = .dict fields ∧ m.category = categoryHV fields ∧
      m.relevance =
        (if term ≠ "" then pyCount term (strLower (jsonDumps fields)) else 1) := by
  unfold termStep at h
  by_cases ht : term ≠ "" ∧ ¬ pyContains term (strLower (jsonDumps fields))
  · simp [ht] at h
  · simp only [ht, if_false, if_neg ht, Option.some.injEq] at h
    subst h
    exact ⟨rfl, rfl, rfl⟩

theorem itemStep_some_spec (ps : String → Option Rat) (s? e? : Option Int)
    (atype : Option String) (term : String) (ent : Entry) (m : Match)
    (h : itemStep ps s? e? atype term ent = .ok (some m)) :
    ∃ f, ent = .dict f ∧ m.item = .dict f ∧ m.category = categoryHV f ∧
      m.relevance =
        (if term ≠ "" then pyCount term (strLower (jsonDumps f)) else 1) := by
  cases ent with
  | nondict v => simp [itemStep] at h
  | dict f =>
    refine ⟨f, rfl, ?_⟩
    by_cases hd : datePass ps s? e? f
    · cases atype with
      | none =>
        simp only [itemStep, if_pos hd, Except.ok.injEq] at h
        exact termStep_some_spec term f m h
      | some ft =>
        by_cases hft : ft = ""
        · simp only [itemStep, if_pos hd, hft, ne_eq, not_true_eq_false, if_false,
            Except.ok.injEq] at h
          exact termStep_some_spec term f m h
        · cases hc : categoryFilterStr f with
          | none => simp [itemStep, hd, hft, hc] at h
          | some cat =>
            by_cases hin : pyContains (strLower ft) cat
            · simp only [itemStep, if_pos hd, hft, ne_eq, not_false_eq_true, if_true,
                hc, hin, if_pos, Except.ok.injEq] at h
              exact termStep_some_spec term f m h
            · simp [itemStep, hd, hft, hc, hin] at h
    · simp [itemStep, hd] at h

theorem buildMatches_mem_spec (ps : String → Option Rat) (s? e? : Option Int)
    (atype : Option String) (term : String) (items : List Entry)
    (l : List Match) (h : buildMatches ps s? e? atype term items = .ok l)
    (m : Match) (hm : m ∈ l) :
    ∃ f, m.item = .dict f ∧ m.category = categoryHV f ∧
      m.relevance =
        (if term ≠ "" then pyCount term (strLower (jsonDumps f)) else 1) := by
  induction items generalizing l with
  | nil =>
    simp only [buildMatches, Except.ok.injEq] at h
    subst h
    simp at hm
  | cons e es ih =>
    simp only [buildMatches] at h
    cases hstep : itemStep ps s? e? atype term e with
    | error u => simp [hstep] at h
    | ok m? =>
      rw [hstep] at h
      cases hrest : buildMatches ps s? e? atype term es with
      | error u => simp [hrest] at h
      | ok rest =>
        rw [hrest] at h
        cases m? with
        | none =>
          simp only [Except.ok.injEq] at h
          subst h
          exact ih rest hrest hm
        | some m0 =>
          simp only [Except.ok.injEq] at h
          subst h
          rcases List.mem_cons.mp hm with hmm | hmem
          · subst hmm
            obtain ⟨f, _, hf⟩ := itemStep_some_spec ps s? e? atype term e m hstep
            exact ⟨f, hf⟩
          · exact ih rest hrest hmem

theorem itemStep_none_filter_ok (ps : String → Option Rat) (s? e? : Option Int)
    (term : String) (ent : Entry) :
    ∃ m?, itemStep ps s? e? none term ent = .ok m? := by
  cases ent with
  | nondict v => exact ⟨none, rfl⟩
  | dict f =>
    by_cases hd : datePass ps s? e? f
    · exact ⟨termStep term f, by simp [itemStep, hd]⟩
    · exact ⟨none, by simp [itemStep, hd]⟩

theorem buildMatches_none_filter_ok (ps : String → Option Rat) (s? e? : Option Int)
    (term : String) (items : List Entry) :
    ∃ l, buildMatches ps s? e? none term items = .ok l := by
  induction items with
  | nil => exact ⟨[], rfl⟩
  | cons e es ih =>
    obtain ⟨m?, hm⟩ := itemStep_none_filter_ok ps s? e? term e
    obtain ⟨l, hl⟩ := ih
    cases m? with
    | none => exact ⟨l, by simp [buildMatches, hm, hl]⟩
    | some m => exact ⟨m :: l, by simp [buildMatches, hm, hl]⟩

theorem itemStep_cat_mono (ps : String → Option Rat) (s? e? : Option Int)
    (ft : String) (term : String) (ent : Entry) (m : Match)
    (h : itemStep ps s? e? (some ft) term ent = .ok (some m)) :
    itemStep ps s? e? none term ent = .ok (some m) := by
  cases ent with
  | nondict v => simp [itemStep] at h
  | dict f =>
    by_cases hd : datePass ps s? e? f
    · by_cases hft : ft = ""
      · simp only [itemStep, if_pos hd, hft, ne_eq, not_true_eq_false, if_false] at h
        simpa [itemStep, hd] using h
      · cases hc : categoryFilterStr f with
        | none => simp [itemStep, hd, hft, hc] at h
        | some cat =>
          by_cases hin : pyContains (strLower ft) cat
          · simp only [itemStep, if_pos hd, hft, ne_eq, not_false_eq_true, if_true, hc,
              hin, if_pos] at h
            simpa [itemStep, hd] using h
          · simp [itemStep, hd, hft, hc, hin] at h
    · simp [itemStep, hd] at h

theorem buildMatches_cat_subset (ps : String → Option Rat) (s? e? : Option Int)
    (ft : String) (term : String) (items : List Entry) (lw : List Match)
    (h : buildMatches ps s? e? (some ft) term items = .ok lw) :
    ∃ l0, buildMatches ps s? e? none term items = .ok l0 ∧ ∀ m ∈ lw, m ∈ l0 := by
  induction items generalizing lw with
  | nil =>
    simp only [buildMatches, Except.ok.injEq] at h
    subst h
    exact ⟨[], rfl, by simp⟩
  | cons e es ih =>
    simp only [buildMatches] at h
    cases hstep : itemStep ps s? e? (some ft) term e with
    | error u => simp [hstep] at h
    | ok m? =>
      rw [hstep] at h
      cases hrest : buildMatches ps s? e? (some ft) term es with
      | error u => simp [hrest] at h
      | ok rest =>
        rw [hrest] at h
        simp only [Except.ok.injEq] at h
        subst h
        obtain ⟨l0, hl0, hsub⟩ := ih rest hrest
        obtain ⟨m0?, hm0⟩ := itemStep_none_filter_ok ps s? e? term e
        cases m? with
        | none =>
          cases m0? with
          | none => exact ⟨l0, by simp [buildMatches, hm0, hl0], hsub⟩
          | some m0 =>
            exact ⟨m0 :: l0, by simp [buildMatches, hm0, hl0],
              fun m hm => List.mem_cons_of_mem m0 (hsub m hm)⟩
        | some mm =>
          have hm0' : itemStep ps s? e? none term e = .ok (some mm) :=
            itemStep_cat_mono ps s? e? ft term e mm hstep
          refine ⟨mm :: l0, by simp [buildMatches, hm0', hl0], ?_⟩
          intro m hm
          rcases List.mem_cons.mp hm with hmm | hmem
          · exact hmm ▸ List.mem_cons_self mm l0
          · exact List.mem_cons_of_mem mm (hsub m hmem)

theorem termStep_empty (fields : List (String × HVal)) :
    termStep "" fields = some ⟨categoryHV fields, .dict fields, 1⟩ := by
  simp [termStep]

theorem datePass_no_bounds (ps : String → Option Rat)
    (fields : List (String × HVal)) : datePass ps none none fields = true := by
  simp [datePass]

theorem buildMatches_empty_term (ps : String → Option Rat) (items : List Entry) :
    ∃ l, buildMatches ps none none none "" items = .ok l ∧
      l.length = (items.filter isDictEntry).length ∧
      ∀ m ∈ l, m.relevance = 1 := by
  induction items with
  | nil => exact ⟨[], rfl, rfl, by simp⟩
  | cons e es ih =>
    obtain ⟨l, hl, hlen, hrel⟩ := ih
    cases e with
    | nondict v =>
      exact ⟨l, by simp [buildMatches, itemStep, hl], by simp [isDictEntry, hlen], hrel⟩
    | dict f =>
      refine ⟨⟨categoryHV f, .dict f, 1⟩ :: l, ?_, ?_, ?_⟩
      · simp [buildMatches, itemStep, datePass_no_bounds, termStep_empty, hl]
      · simp [isDictEntry, hlen]
      · intro m hm
        rcases List.mem_cons.mp hm with hmm | hmem
        · simp [hmm]
        · exact hrel m hmem

theorem search_matchList_eq (ps : String → Option Rat) (store : Store)
    (args : SearchArgs) (data : AnalysisData) (s? e? : Option Int)
    (pre : List Match)
    (hl : List.lookup args.analysis_id store = some data)
    (hr : parseDateRange args.date_range = .ok (s?, e?))
    (hb : buildMatches ps s? e? args.artifact_type (strLower args.search_term)
        (resultsList data.results) = .ok pre) :
    matchList (search_analysis_results ps store args).1 =
      some (sortDescBy Match.relevance pre) := by
  unfold search_analysis_results
  simp only [hl, hr, hb]
  by_cases hs : (sortDescBy Match.relevance pre).isEmpty
  · have he : sortDescBy Match.relevance pre = [] := List.isEmpty_iff.mp hs
    simp [hs, he, matchList]
  · simp [hs, matchList]

theorem rat_floor_intFloor (q : Rat) : q.floor = ⌊q⌋ := rfl

theorem dayOfSeconds_eq_floor (s : Rat) : dayOfSeconds s = ⌊s / 86400⌋ := by
  have hden : ((s.den : ℚ)) ≠ 0 := by
    exact_mod_cast s.den_nz
  have hnum : (s.num : ℚ) = s * (s.den : ℚ) := by
    rw [← div_eq_iff hden]
    exact Rat.num_div_den s
  have hrepr : s / 86400 = (s.num : ℚ) / ((86400 * s.den : ℕ) : ℚ) := by
    push_cast
    rw [div_eq_div_iff (by norm_num) (by positivity), hnum]
    ring
  rw [hrepr, Rat.floor_intCast_div_natCast, dayOfSeconds]
  push_cast
  rfl

theorem strLower_ne_empty (s : String) (h : s ≠ "") : strLower s ≠ "" := by
  intro hc
  apply h
  have hd : s.data.map Char.toLower = [] := congrArg String.data hc
  have hnil : s.data = [] := List.map_eq_nil_iff.mp hd
  cases s with
  | mk l =>
    cases hnil
    rfl

/-- C1: the spec expects `visit_time = 13288464000000000` (WebKit/FILETIME
microseconds, early 2022) to normalize into calendar year 2022, but the code's
magnitude bracket `> 1e15` sends it down the nanosecond branch: it is divided by 1e9
to 13288464 seconds, the FILETIME offset test then fails, and the resulting instant
lies in June 1970.  The last two conjuncts evaluate the spec's intended reading
(divide by 1e6, subtract the offset), which indeed lands in 2022. -/
theorem c1_visit_time_microseconds_lands_in_1970 :
    parse_hindsight_timestamp (fun _ => none)
        [("visit_time", HVal.vInt 13288464000000000)] = some 13288464 ∧
    yearOfDay (dayOfSeconds 13288464) = 1970 ∧
    (13288464000000000 : Rat) / 1000000 - filetimeOffset = 1643990400 ∧
    yearOfDay (dayOfSeconds 1643990400) = 2022 := by
  have h153 : dayOfSeconds 13288464 = 153 := by decide
  have h19027 : dayOfSeconds 1643990400 = 19027 := by decide
  have hnn : numNormalize (13288464000000000 : Rat) = 13288464 := by
    norm_num [numNormalize, filetimeOffset]
  have hft : fromtimestampUTC 13288464 = some 13288464 := by
    rw [fromtimestampUTC, if_pos]
    constructor <;> norm_num
  refine ⟨?_, by rw [h153]; decide, by norm_num [filetimeOffset], by rw [h19027]; decide⟩
  simp [parse_hindsight_timestamp, candidateKeys, probeKeys, List.lookup, truthy,
    tryVal, tryNum, hnn, hft]

/-- C2: a numeric timestamp value goes through exactly one magnitude-bracket division
(`> 1e15 → /1e9`, else `> 1e12 → /1e6`, else `> 1e10 → /1e3`), then the FILETIME
offset 11644473600 is subtracted when the reduced seconds exceed it, and the result is
the UTC instant — for values the CPython `datetime` range accepts.  In particular the
bare integer 1609459200 is neither divided nor offset-corrected. -/
theorem c2_numeric_bracket_normalization :
    (∀ (ps : String → Option Rat) (v : Rat), v ≠ 0 →
      -62135596800 ≤ numNormalize v → numNormalize v < 253402300800 →
      parse_hindsight_timestamp ps [("timestamp", HVal.vFloat v)] =
        some (
          let s := if v > 1000000000000000 then v / 1000000000
                   else if v > 1000000000000 then v / 1000000
                   else if v > 10000000000 then v / 1000
                   else v
          if s > 11644473600 then s - 11644473600 else s)) ∧
    (∀ (ps : String → Option Rat) (n : Int), n ≠ 0 →
      -62135596800 ≤ numNormalize (n : Rat) → numNormalize (n : Rat) < 253402300800 →
      parse_hindsight_timestamp ps [("timestamp", HVal.vInt n)] =
        some (
          let s := if (n : Rat) > 1000000000000000 then (n : Rat) / 1000000000
                   else if (n : Rat) > 1000000000000 then (n : Rat) / 1000000
                   else if (n : Rat) > 10000000000 then (n : Rat) / 1000
                   else (n : Rat)
          if s > 11644473600 then s - 11644473600 else s)) ∧
    (∀ ps : String → Option Rat,
      parse_hindsight_timestamp ps [("timestamp", HVal.vInt 1609459200)] =
        some 1609459200) := by
  refine ⟨?_, ?_, fun ps => ?_⟩
  case refine_3 =>
    have hnn : numNormalize (1609459200 : Rat) = 1609459200 := by
      norm_num [numNormalize, filetimeOffset]
    have hft : fromtimestampUTC 1609459200 = some 1609459200 := by
      rw [fromtimestampUTC, if_pos]
      constructor <;> norm_num
    simp [parse_hindsight_timestamp, candidateKeys, probeKeys, List.lookup, truthy,
      tryVal, tryNum, hnn, hft]
  · intro ps v hv hlo hhi
    have hnn : parse_hindsight_timestamp ps [("timestamp", HVal.vFloat v)] =
        some (numNormalize v) := by
      simp [parse_hindsight_timestamp, candidateKeys, probeKeys, List.lookup, truthy,
        hv, tryVal, tryNum, fromtimestampUTC, hlo, hhi]
    rw [hnn]
    simp [numNormalize, filetimeOffset]
  · intro ps n hn hlo hhi
    have hv : (n : Rat) ≠ 0 := by exact_mod_cast hn
    have hnn : parse_hindsight_timestamp ps [("timestamp", HVal.vInt n)] =
        some (numNormalize (n : Rat)) := by
      simp [parse_hindsight_timestamp, candidateKeys, probeKeys, List.lookup, truthy,
        hn, tryVal, tryNum, fromtimestampUTC, hlo, hhi]
    rw [hnn]
    simp [numNormalize, filetimeOffset]

/-- C2 witness: the theorem applied at the bare seconds value 1609459200. -/
theorem c2_numeric_bracket_normalization_witness :
    (1609459200 : Rat) ≠ 0 ∧
    parse_hindsight_timestamp (fun _ => none)
      [("timestamp", HVal.vFloat 1609459200)] = some 1609459200 := by
  refine ⟨by norm_num, ?_⟩
  have h := c2_numeric_bracket_normalization.1 (fun _ => none) 1609459200
    (by norm_num) (by norm_num [numNormalize, filetimeOffset])
    (by norm_num [numNormalize, filetimeOffset])
  norm_num at h
  exact h

/-- C3 counterexample: the record has `datetime` (an unparsable string, the modelled
`dateutil` raises on it) before `timestamp` (valid seconds).  The claim says the
timestamp must be `None` because the first present, non-empty candidate fails; the
code instead falls through to the next candidate and returns the parsed value. -/
theorem c3_counterexample_failure_falls_through :
    parse_hindsight_timestamp (fun _ => none)
        [("datetime", HVal.vStr "???"), ("timestamp", HVal.vInt 1609459200)] =
      some 1609459200 ∧
    truthy (HVal.vStr "???") = true := by
  exact ⟨by decide, by decide⟩

/-- C3 amended: the normalizer probes `datetime, timestamp, visit_time, start_time,
last_visit_time` in that order and returns the first candidate that is present,
truthy and parses successfully; a candidate that fails (absent, falsy, wrong type, or
parse error) is skipped in favour of later candidates; the result is `None` exactly
when every candidate fails — never an error. -/
theorem c3_amended_probe_first_success :
    ∀ (ps : String → Option Rat) (fields : List (String × HVal)),
      (parse_hindsight_timestamp ps fields = none ↔
        ∀ k ∈ candidateKeys, tryKey ps fields k = none) ∧
      (∀ t, parse_hindsight_timestamp ps fields = some t →
        ∃ pre post k, candidateKeys = pre ++ k :: post ∧
          tryKey ps fields k = some t ∧ ∀ k' ∈ pre, tryKey ps fields k' = none) :=
  fun ps fields =>
    ⟨probeKeys_eq_none_iff ps fields candidateKeys,
     fun t h => probeKeys_eq_some ps fields candidateKeys t h⟩

/-- C3 amended witness: the characterization applied to a concrete record. -/
theorem c3_amended_probe_first_success_witness :
    ∃ pre post k, candidateKeys = pre ++ k :: post ∧
      tryKey (fun _ => none) [("timestamp", HVal.vInt 1609459200)] k =
        some 1609459200 ∧
      ∀ k' ∈ pre, tryKey (fun _ => none) [("timestamp", HVal.vInt 1609459200)] k' =
        none :=
  (c3_amended_probe_first_success (fun _ => none)
    [("timestamp", HVal.vInt 1609459200)]).2 1609459200 (by decide)

theorem matchList_some_inv (ps : String → Option Rat) (store : Store)
    (args : SearchArgs) (l : List Match)
    (h : matchList (search_analysis_results ps store args).1 = some l) :
    ∃ data s? e? pre,
      List.lookup args.analysis_id store = some data ∧
      parseDateRange args.date_range = .ok (s?, e?) ∧
      buildMatches ps s? e? args.artifact_type (strLower args.search_term)
        (resultsList data.results) = .ok pre ∧
      l = sortDescBy Match.relevance pre := by
  unfold search_analysis_results at h
  cases hl : List.lookup args.analysis_id store with
  | none => rw [hl] at h; simp [matchList] at h
  | some data =>
    rw [hl] at h
    cases hr : parseDateRange args.date_range with
    | error u => rw [hr] at h; simp [matchList] at h
    | ok se =>
      obtain ⟨s?, e?⟩ := se
      rw [hr] at h
      dsimp only at h
      cases hb : buildMatches ps s? e? args.artifact_type (strLower args.search_term)
          (resultsList data.results) with
      | error u => rw [hb] at h; simp [matchList] at h
      | ok pre =>
        rw [hb] at h
        refine ⟨data, s?, e?, pre, rfl, rfl, hb, ?_⟩
        by_cases hs : (sortDescBy Match.relevance pre).isEmpty
        · have he : sortDescBy Match.relevance pre = [] := List.isEmpty_iff.mp hs
          rw [he]
          simp [hs, matchList] at h
          exact h
        · simp [hs, matchList] at h
          exact h.symm

/-- C4: for a completed search with a non-empty term, every match scores the number of
non-overlapping occurrences of the lowercased term in the lowercased JSON dump of the
record, the output is sorted descending by that score, and for every score value the
matches carrying it appear in the same order as in the pre-sort loop output `pre`,
which is built in ingestion order — the stable-sort tie-break. -/
theorem c4_ranking_stable_descending :
    ∀ (ps : String → Option Rat) (store : Store) (args : SearchArgs)
      (data : AnalysisData) (s? e? : Option Int) (pre l : List Match),
      args.search_term ≠ "" →
      List.lookup args.analysis_id store = some data →
      parseDateRange args.date_range = .ok (s?, e?) →
      buildMatches ps s? e? args.artifact_type (strLower args.search_term)
          (resultsList data.results) = .ok pre →
      matchList (search_analysis_results ps store args).1 = some l →
      (∀ m ∈ l, ∃ f, m.item = .dict f ∧
          m.relevance = pyCount (strLower args.search_term) (strLower (jsonDumps f))) ∧
      l.Pairwise (fun a b => b.relevance ≤ a.relevance) ∧
      (∀ k, l.filter (fun m => m.relevance = k) =
        pre.filter (fun m => m.relevance = k)) := by
  intro ps store args data s? e? pre l hterm hl hr hb hml
  have hsorted := search_matchList_eq ps store args data s? e? pre hl hr hb
  rw [hml] at hsorted
  have hleq : l = sortDescBy Match.relevance pre := Option.some.inj hsorted
  subst hleq
  refine ⟨?_, sortDescBy_pairwise Match.relevance pre, ?_⟩
  · intro m hm
    have hmp : m ∈ pre := (sortDescBy_perm Match.relevance pre).mem_iff.mp hm
    obtain ⟨f, hf1, _, hf3⟩ := buildMatches_mem_spec ps s? e? args.artifact_type
      (strLower args.search_term) (resultsList data.results) pre hb m hmp
    exact ⟨f, hf1, by rw [hf3, if_pos (strLower_ne_empty _ hterm)]⟩
  · intro k
    exact sortDescBy_filter_key Match.relevance k pre

/-- C4 witness: a two-record session searched with term `"x"`; the record whose dump
holds two occurrences outranks the one with one. -/
theorem c4_ranking_stable_descending_witness :
    (∀ m ∈ ([⟨HVal.vStr "unknown", Entry.dict [("url", HVal.vStr "xx")], 2⟩,
             ⟨HVal.vStr "unknown", Entry.dict [("url", HVal.vStr "x")], 1⟩] :
        List Match), ∃ f, m.item = .dict f ∧
        m.relevance = pyCount (strLower "x") (strLower (jsonDumps f))) ∧
    ([⟨HVal.vStr "unknown", Entry.dict [("url", HVal.vStr "xx")], 2⟩,
      ⟨HVal.vStr "unknown", Entry.dict [("url", HVal.vStr "x")], 1⟩] :
        List Match).Pairwise (fun a b => b.relevance ≤ a.relevance) ∧
    (∀ k, ([⟨HVal.vStr "unknown", Entry.dict [("url", HVal.vStr "xx")], 2⟩,
            ⟨HVal.vStr "unknown", Entry.dict [("url", HVal.vStr "x")], 1⟩] :
        List Match).filter (fun m => m.relevance = k) =
      ([⟨HVal.vStr "unknown", Entry.dict [("url", HVal.vStr "xx")], 2⟩,
        ⟨HVal.vStr "unknown", Entry.dict [("url", HVal.vStr "x")], 1⟩] :
        List Match).filter (fun m => m.relevance = k)) :=
  c4_ranking_stable_descending (fun _ => none)
    [("a", ⟨.list [.dict [("url", .vStr "xx")], .dict [("url", .vStr "x")]]⟩)]
    ⟨"a", "x", none, none⟩ ⟨.list [.dict [("url", .vStr "xx")],
      .dict [("url", .vStr "x")]]⟩ none none
    [⟨HVal.vStr "unknown", Entry.dict [("url", HVal.vStr "xx")], 2⟩,
     ⟨HVal.vStr "unknown", Entry.dict [("url", HVal.vStr "x")], 1⟩]
    [⟨HVal.vStr "unknown", Entry.dict [("url", HVal.vStr "xx")], 2⟩,
     ⟨HVal.vStr "unknown", Entry.dict [("url", HVal.vStr "x")], 1⟩]
    (by decide) (by rfl) (by rfl) (by rfl) (by rfl)

/-- C5: with at least one bound supplied, the date filter excludes a record exactly
when its normalized timestamp is `None` or its UTC date violates a supplied bound;
with no bound every record passes the date filter; and a search whose filter loop
keeps no record returns the "no matches" message, not an error. -/
theorem c5_date_filter_excludes_exactly :
    (∀ (ps : String → Option Rat) (s? e? : Option Int)
       (fields : List (String × HVal)), s?.isSome ∨ e?.isSome →
      (datePass ps s? e? fields = false ↔
        parse_hindsight_timestamp ps fields = none ∨
        ∃ t, parse_hindsight_timestamp ps fields = some t ∧
          ((∃ s, s? = some s ∧ dayOfSeconds t < s) ∨
           (∃ e, e? = some e ∧ e < dayOfSeconds t)))) ∧
    (∀ (ps : String → Option Rat) (fields : List (String × HVal)),
      datePass ps none none fields = true) ∧
    (∀ (ps : String → Option Rat) (store : Store) (args : SearchArgs)
       (data : AnalysisData) (s? e? : Option Int),
      List.lookup args.analysis_id store = some data →
      parseDateRange args.date_range = .ok (s?, e?) →
      buildMatches ps s? e? args.artifact_type (strLower args.search_term)
          (resultsList data.results) = .ok [] →
      (search_analysis_results ps store args).1 =
        .noMatches ("No matches found for the specified criteria in analysis \x27" ++
          args.analysis_id ++ "\x27.")) := by
  refine ⟨?_, ?_, ?_⟩
  · intro ps s? e? fields hse
    have hcond : (s?.isSome || e?.isSome) = true := by
      rcases hse with h | h <;> simp [h]
    cases hparse : parse_hindsight_timestamp ps fields with
    | none => simp [datePass, hcond, hparse]
    | some t =>
      rcases s? with _ | s <;> rcases e? with _ | e
      · simp at hcond
      · simp [datePass, hparse]
      · simp [datePass, hparse]
      · simp [datePass, hparse]
        omega
  · intro ps fields
    simp [datePass]
  · intro ps store args data s? e? hl hr hb
    unfold search_analysis_results
    rw [hl]
    dsimp only
    rw [hr]
    dsimp only
    rw [hb]
    simp [sortDescBy, matchList]

/-- C5 witness: a session whose single record parses to the epoch, searched with a
start bound of 2099-01-01: nothing survives and the outcome is the no-matches
message. -/
theorem c5_date_filter_excludes_exactly_witness :
    (search_analysis_results (fun _ => some 0)
        [("a", ⟨.list [.dict [("datetime", .vStr "t")]]⟩)]
        ⟨"a", "", none, some ⟨some "2099-01-01", none⟩⟩).1 =
      .noMatches ("No matches found for the specified criteria in analysis \x27" ++
        "a" ++ "\x27.") :=
  c5_date_filter_excludes_exactly.2.2 (fun _ => some 0)
    [("a", ⟨.list [.dict [("datetime", .vStr "t")]]⟩)]
    ⟨"a", "", none, some ⟨some "2099-01-01", none⟩⟩
    ⟨.list [.dict [("datetime", .vStr "t")]]⟩ (some 47117) none
    (by rfl) (by rfl) (by rfl)

/-- C7 counterexample: a stored session whose single entry is not a dict (`json.loads`
of a JSONL line `null`): an empty-term search with no other filter returns zero
matches while the session holds one record, so the match count does not equal the
record count. -/
theorem c7_counterexample_nondict_record :
    matchList (search_analysis_results (fun _ => none)
        [("a", ⟨.list [Entry.nondict HVal.vNull]⟩)] ⟨"a", "", none, none⟩).1 =
      some [] ∧
    (resultsList (ResultsVal.list [Entry.nondict HVal.vNull])).length = 1 :=
  ⟨by rfl, by rfl⟩

/-- C7 amended: an empty-term search with no category filter and no date range over a
stored session returns one match per record that is a string-keyed mapping (non-dict
entries and a non-list results value contribute nothing), and every match has
relevance 1. -/
theorem c7_empty_term_counts_dict_records :
    ∀ (ps : String → Option Rat) (store : Store) (id : String)
      (data : AnalysisData) (l : List Match),
      List.lookup id store = some data →
      matchList (search_analysis_results ps store ⟨id, "", none, none⟩).1 = some l →
      l.length = ((resultsList data.results).filter isDictEntry).length ∧
      ∀ m ∈ l, m.relevance = 1 := by
  intro ps store id data l hl hml
  obtain ⟨pre, hb, hlen, hrel⟩ := buildMatches_empty_term ps (resultsList data.results)
  have hb' : buildMatches ps none none none (strLower "")
      (resultsList data.results) = .ok pre := hb
  have hm := search_matchList_eq ps store ⟨id, "", none, none⟩ data none none pre
    hl rfl hb'
  rw [hml] at hm
  have hleq : l = sortDescBy Match.relevance pre := Option.some.inj hm
  subst hleq
  constructor
  · rw [(sortDescBy_perm Match.relevance pre).length_eq]
    exact hlen
  · intro m hm'
    exact hrel m ((sortDescBy_perm Match.relevance pre).mem_iff.mp hm')

/-- C7 amended witness: a one-dict session yields exactly one match of relevance 1. -/
theorem c7_empty_term_counts_dict_records_witness :
    ([⟨HVal.vStr "unknown", Entry.dict [], 1⟩] : List Match).length =
      ((resultsList (ResultsVal.list [Entry.dict []])).filter isDictEntry).length ∧
    ∀ m ∈ ([⟨HVal.vStr "unknown", Entry.dict [], 1⟩] : List Match),
      m.relevance = 1 :=
  c7_empty_term_counts_dict_records (fun _ => none)
    [("a", ⟨.list [Entry.dict []]⟩)] "a" ⟨.list [Entry.dict []]⟩
    [⟨HVal.vStr "unknown", Entry.dict [], 1⟩] (by rfl) (by rfl)

/-- C8 counterexample: a record with none of the category fields.  The claim derives
its category as `"unknown"`, and the filter `"know"` is a substring of `"unknown"`,
so the claim predicts the record passes; the code's filter uses the default `''`
instead, `"know"` is not in `''`, and the record is excluded. -/
theorem c8_counterexample_default_empty_vs_unknown :
    matchList (search_analysis_results (fun _ => none)
        [("a", ⟨.list [Entry.dict [("url", HVal.vStr "x")]]⟩)]
        ⟨"a", "", some "know", none⟩).1 = some [] ∧
    categoryHV [("url", HVal.vStr "x")] = HVal.vStr "unknown" ∧
    pyContains (strLower "know") (strLower "unknown") = true :=
  ⟨by rfl, by rfl, by rfl⟩

/-- C8 amended: the category string the filter tests is the first truthy value among
`artifact`, `type`, `category` lowercased when it is a string (a truthy non-string
raises `TypeError`), and defaults to the EMPTY string — not `"unknown"` — when all
three are absent or falsy; and whenever a search with a category filter completes
with a match list, the same search without the filter completes with a superset. -/
theorem c8_category_filter_narrowing :
    (∀ (fields : List (String × HVal)) (c : String),
      categoryFilterStr fields = some c →
      (firstTruthy fields ["artifact", "type", "category"] = none ∧ c = "") ∨
      (∃ s, firstTruthy fields ["artifact", "type", "category"] = some (.vStr s) ∧
        c = strLower s)) ∧
    (∀ (ps : String → Option Rat) (store : Store) (args : SearchArgs)
       (l : List Match),
      matchList (search_analysis_results ps store args).1 = some l →
      ∃ l', matchList (search_analysis_results ps store
          { args with artifact_type := none }).1 = some l' ∧ ∀ m ∈ l, m ∈ l') := by
  constructor
  · intro fields c h
    unfold categoryFilterStr at h
    cases hft : firstTruthy fields ["artifact", "type", "category"] with
    | none =>
      rw [hft] at h
      exact Or.inl ⟨rfl, (Option.some.inj h).symm⟩
    | some v =>
      rw [hft] at h
      cases v with
      | vStr s => exact Or.inr ⟨s, rfl, (Option.some.inj h).symm⟩
      | vNull => simp at h
      | vBool b => simp at h
      | vInt n => simp at h
      | vFloat q => simp at h
  · intro ps store args l hml
    obtain ⟨aid, term, atype, dr⟩ := args
    obtain ⟨data, s?, e?, pre, hl, hr, hb, hleq⟩ :=
      matchList_some_inv ps store ⟨aid, term, atype, dr⟩ l hml
    cases atype with
    | none => exact ⟨l, hml, fun m hm => hm⟩
    | some ft =>
      obtain ⟨l0, hl0, hsub⟩ := buildMatches_cat_subset ps s? e? ft (strLower term)
        (resultsList data.results) pre hb
      have hm0 := search_matchList_eq ps store ⟨aid, term, none, dr⟩ data s? e? l0
        hl hr hl0
      refine ⟨sortDescBy Match.relevance l0, hm0, ?_⟩
      intro m hm
      have hmp : m ∈ pre :=
        (sortDescBy_perm Match.relevance pre).mem_iff.mp (hleq ▸ hm)
      exact (sortDescBy_perm Match.relevance l0).mem_iff.mpr (hsub m hmp)

/-- C8 amended witness: the partial-match example, `"url"` filtering a
`chrome:history:url` record; removing the filter keeps the match. -/
theorem c8_category_filter_narrowing_witness :
    ∃ l', matchList (search_analysis_results (fun _ => none)
        [("a", ⟨.list [Entry.dict [("artifact", HVal.vStr "chrome:history:url")]]⟩)]
        { analysis_id := "a", search_term := "", artifact_type := none,
          date_range := none }).1 = some l' ∧
      ∀ m ∈ ([⟨HVal.vStr "chrome:history:url",
          Entry.dict [("artifact", HVal.vStr "chrome:history:url")], 1⟩] : List Match),
        m ∈ l' :=
  c8_category_filter_narrowing.2 (fun _ => none)
    [("a", ⟨.list [Entry.dict [("artifact", HVal.vStr "chrome:history:url")]]⟩)]
    ⟨"a", "", some "url", none⟩
    [⟨HVal.vStr "chrome:history:url",
      Entry.dict [("artifact", HVal.vStr "chrome:history:url")], 1⟩] (by rfl)

/-- C9 counterexample: a record carrying the highest (and only) visit-count but no
`url` key.  The claim says the top-visited highlight selects among records carrying a
visit-count field, so this record should be listed; the code selects among records
carrying a `url` key, so the highlight list is empty. -/
theorem c9_counterexample_visit_count_without_url :
    top_visited [Entry.dict [("visit_count", HVal.vInt 100)]] = some [] := by rfl

/-- C9 amended: the top-visited highlight selects among records carrying a `url` KEY,
sorts them stably descending by `visit_count` (absent key counts as 0), takes the
first 3 and renders each as the first 50 characters of the url string with an
ellipsis when truncated; Scenario A (visit counts 9 vs 5) lists b.com before
a.com. -/
theorem c9_top_visited_among_url_records :
    (∀ (items : List Entry) (su : List Entry), sorted_urls items = some su →
      su.Perm (urlsOf items) ∧
      su.Pairwise (fun a b =>
        (visitCountKey b).getD 0 ≤ (visitCountKey a).getD 0) ∧
      (∀ k, su.filter (fun u => (visitCountKey u).getD 0 = k) =
        (urlsOf items).filter (fun u => (visitCountKey u).getD 0 = k))) ∧
    (∀ (items : List Entry) (su : List Entry) (out : List String),
      sorted_urls items = some su → top_visited items = some out →
      out = (su.take 3).map (fun u => renderTrunc ((urlStrOf u).getD ""))) ∧
    (top_visited
      [Entry.dict [("url", HVal.vStr "http://a.com"), ("visit_count", HVal.vInt 5)],
       Entry.dict [("url", HVal.vStr "http://b.com"), ("visit_count", HVal.vInt 9)]] =
      some ["http://b.com", "http://a.com"]) := by
  refine ⟨?_, ?_, by rfl⟩
  · intro items su hsu
    unfold sorted_urls at hsu
    by_cases hall : (urlsOf items).all (fun u => (visitCountKey u).isSome)
    · simp only [hall, if_true, Option.some.injEq] at hsu
      subst hsu
      exact ⟨sortDescBy_perm _ _, sortDescBy_pairwise _ _,
        fun k => sortDescBy_filter_key _ k _⟩
    · simp [hall] at hsu
  · intro items su out hsu hout
    unfold top_visited at hout
    rw [hsu] at hout
    by_cases htop : (su.take 3).all (fun u => (urlStrOf u).isSome)
    · simp only [htop, if_true, Option.some.injEq] at hout
      exact hout.symm
    · simp [htop] at hout

/-- C9 amended witness: the characterization applied to the Scenario A records. -/
theorem c9_top_visited_among_url_records_witness :
    ([Entry.dict [("url", HVal.vStr "http://b.com"), ("visit_count", HVal.vInt 9)],
      Entry.dict [("url", HVal.vStr "http://a.com"), ("visit_count", HVal.vInt 5)]] :
        List Entry).Perm (urlsOf
      [Entry.dict [("url", HVal.vStr "http://a.com"), ("visit_count", HVal.vInt 5)],
       Entry.dict [("url", HVal.vStr "http://b.com"), ("visit_count", HVal.vInt 9)]]) ∧
    ([Entry.dict [("url", HVal.vStr "http://b.com"), ("visit_count", HVal.vInt 9)],
      Entry.dict [("url", HVal.vStr "http://a.com"), ("visit_count", HVal.vInt 5)]] :
        List Entry).Pairwise (fun a b =>
        (visitCountKey b).getD 0 ≤ (visitCountKey a).getD 0) ∧
    (∀ k, ([Entry.dict [("url", HVal.vStr "http://b.com"),
            ("visit_count", HVal.vInt 9)],
          Entry.dict [("url", HVal.vStr "http://a.com"),
            ("visit_count", HVal.vInt 5)]] :
        List Entry).filter (fun u => (visitCountKey u).getD 0 = k) =
      (urlsOf [Entry.dict [("url", HVal.vStr "http://a.com"),
          ("visit_count", HVal.vInt 5)],
        Entry.dict [("url", HVal.vStr "http://b.com"),
          ("visit_count", HVal.vInt 9)]]).filter
        (fun u => (visitCountKey u).getD 0 = k)) :=
  c9_top_visited_among_url_records.1
    [Entry.dict [("url", HVal.vStr "http://a.com"), ("visit_count", HVal.vInt 5)],
     Entry.dict [("url", HVal.vStr "http://b.com"), ("visit_count", HVal.vInt 9)]]
    [Entry.dict [("url", HVal.vStr "http://b.com"), ("visit_count", HVal.vInt 9)],
     Entry.dict [("url", HVal.vStr "http://a.com"), ("visit_count", HVal.vInt 5)]]
    (by rfl)

theorem sumBuckets_bucketIncr (b : List (HVal × Nat)) (k : HVal) :
    sumBuckets (bucketIncr b k) = sumBuckets b + 1 := by
  induction b with
  | nil => rfl
  | cons kv rest ih =>
    obtain ⟨k', n⟩ := kv
    by_cases h : k' = k
    · simp [bucketIncr, h, sumBuckets]
      omega
    · simp only [bucketIncr, if_neg h]
      simp only [sumBuckets, List.map_cons, List.sum_cons] at ih ⊢
      omega

theorem bucketsOf_sum_aux (items : List Entry) (b : List (HVal × Nat)) :
    sumBuckets (items.foldl
      (fun b e => match e with
        | .nondict _ => b | .dict f => bucketIncr b (categoryHV f)) b) =
    sumBuckets b + (items.filter isDictEntry).length := by
  induction items generalizing b with
  | nil => simp
  | cons e es ih =>
    cases e with
    | nondict v => simp [List.foldl_cons, isDictEntry, ih]
    | dict f =>
      simp only [List.foldl_cons, List.filter_cons, isDictEntry, List.length_cons,
        decide_True]
      rw [ih, sumBuckets_bucketIncr]
      simp
      omega

theorem length_split_dict (items : List Entry) :
    items.length = (items.filter isDictEntry).length +
      (items.filter (fun e => !isDictEntry e)).length := by
  induction items with
  | nil => rfl
  | cons e es ih =>
    cases hd : isDictEntry e <;> simp [List.filter_cons, hd, ih] <;> omega

/-- C10: non-dict entries never appear in any match list; the summarizer's
per-category buckets count exactly the dict entries while the reported total counts
every entry, so the total equals the bucket sum plus the number of non-dict entries
and can exceed the bucket sum (shown at a one-element non-dict results list). -/
theorem c10_nondict_skipped_but_counted :
    (∀ (ps : String → Option Rat) (store : Store) (args : SearchArgs)
       (l : List Match),
      matchList (search_analysis_results ps store args).1 = some l →
      ∀ m ∈ l, ∃ f, m.item = Entry.dict f) ∧
    (∀ items : List Entry,
      sumBuckets (bucketsOf items) = (items.filter isDictEntry).length ∧
      items.length = sumBuckets (bucketsOf items) +
        (items.filter (fun e => !isDictEntry e)).length) ∧
    ((resultsList (ResultsVal.list [Entry.nondict HVal.vNull])).length >
      sumBuckets (bucketsOf (resultsList (ResultsVal.list [Entry.nondict HVal.vNull])))) := by
  have hsum : ∀ items : List Entry,
      sumBuckets (bucketsOf items) = (items.filter isDictEntry).length := by
    intro items
    have h := bucketsOf_sum_aux items []
    simpa [bucketsOf, sumBuckets] using h
  refine ⟨?_, ?_, ?_⟩
  · intro ps store args l hml m hm
    obtain ⟨data, s?, e?, pre, _, _, hb, hleq⟩ :=
      matchList_some_inv ps store args l hml
    have hmp : m ∈ pre :=
      (sortDescBy_perm Match.relevance pre).mem_iff.mp (hleq ▸ hm)
    obtain ⟨f, hf, _, _⟩ := buildMatches_mem_spec ps s? e? args.artifact_type
      (strLower args.search_term) (resultsList data.results) pre hb m hmp
    exact ⟨f, hf⟩
  · intro items
    exact ⟨hsum items, by rw [hsum items]; exact length_split_dict items⟩
  · rw [hsum]
    decide

/-- C10 witness: a found match of a one-dict session is a dict entry. -/
theorem c10_nondict_skipped_but_counted_witness :
    ∃ f, (⟨HVal.vStr "unknown", Entry.dict [], 1⟩ : Match).item = Entry.dict f :=
  c10_nondict_skipped_but_counted.1 (fun _ => none)
    [("a", ⟨.list [Entry.dict []]⟩)] ⟨"a", "", none, none⟩
    [⟨HVal.vStr "unknown", Entry.dict [], 1⟩] (by rfl)
    ⟨HVal.vStr "unknown", Entry.dict [], 1⟩ (by simp)
